import Mathlib

/-!
Verification of the simplepir matrix library and LHE (linear-homomorphic)
client operations, as a shallow embedding of the Go sources
(src/matrix/matrix.go: package matrix, and the pir package fragment holding
SecretLHE, QueryLHE and RecoverManyLHE).

Machine integers (uint64 and the ring element types Elem32/Elem64) are
modelled as natural numbers with explicit reduction modulo 2^w, where w is
the element width (32 or 64 in Go; kept as a parameter here).  Go panics are
modelled as typed errors following the spec's error taxonomy.  In-place
mutation of matrices reached through pointers is modelled with an explicit
store of matrix cells, so that aliasing between the client's secret state and
the buffers QueryLHE mutates is captured faithfully.
-/

namespace SimplePIR

/-- Error kinds from the spec's error-handling taxonomy (section 7).  Go
panics in the sources are modelled as these typed errors.  `ParameterMismatch`
is the "Parameter mismatch" panic of QueryLHE's shape check;  `DivideByZero`
models the Go runtime panic on integer division by zero. -/
inductive Err where
  | IndexOutOfRange
  | DimensionMismatch
  | UnsupportedParameter
  | RandomnessFailure
  | ParameterMismatch
  | DivideByZero
  deriving DecidableEq, Repr

/-- Decidable equality of results, for evaluating the embedding on concrete
inputs inside proofs. -/
instance exceptDecEq {e a : Type} [DecidableEq e] [DecidableEq a] :
    DecidableEq (Except e a) := fun x y =>
  match x, y with
  | .ok v, .ok v2 =>
    if h : v = v2 then .isTrue (congrArg Except.ok h)
    else .isFalse fun hc => h (Except.ok.inj hc)
  | .ok _, .error _ => .isFalse fun hc => Except.noConfusion hc
  | .error _, .ok _ => .isFalse fun hc => Except.noConfusion hc
  | .error v, .error v2 =>
    if h : v = v2 then .isTrue (congrArg Except.error h)
    else .isFalse fun hc => h (Except.error.inj hc)

/-- Go `Matrix[T]`: row-major matrix with `rows`, `cols` and flat `data`.
Entries are ring elements stored as naturals; every operation that stores an
entry reduces it modulo 2^w (the `T(...)` casts / native wraparound). -/
structure Matrix where
  rows : Nat
  cols : Nat
  data : List Nat
  deriving DecidableEq, Repr

/-- The structural invariant of the data model: `data.length == rows*cols`. -/
abbrev Wf (m : Matrix) : Prop := m.data.length = m.rows * m.cols

/-- Go `New(rows, cols)`: zero-filled matrix (Go `make` zero-initializes). -/
def New (rows cols : Nat) : Matrix :=
  ⟨rows, cols, List.replicate (rows * cols) 0⟩

/-- Go `Zeros(rows, cols)`: `New` followed by storing 0 in every slot. -/
def Zeros (rows cols : Nat) : Matrix :=
  ⟨rows, cols, List.replicate (rows * cols) 0⟩

/-- Go `(m *Matrix[T]) Copy()`: a deep copy; as a value it is the same
matrix (the store model below decides which cell it lives in). -/
def Matrix.Copy (m : Matrix) : Matrix :=
  ⟨m.rows, m.cols, m.data⟩

/-- Go `Rand(src, rows, cols, logmod, mod)`: every entry is an independent
draw from the random source, cast to the element width (`T(v.Uint64())`).
The randomness source is abstracted as a stream `src : Nat → Nat` giving the
value of the i-th draw; the `logmod`/`mod` bound parameters are kept for
signature fidelity but the draw values are taken from the stream. -/
def Rand (w : Nat) (src : Nat → Nat) (rows cols logmod mod : Nat) : Matrix :=
  ⟨rows, cols, (List.range (rows * cols)).map fun i => src i % 2 ^ w⟩

/-- Go `Gaussian(src, rows, cols)`: every entry is `T(samplef(src))` for the
width-matched Gaussian sampler (package lwe, not among the sources).  The
sampler is abstracted as a stream `src : Nat → Nat` of the ring
representatives of the sampled signed integers, cast to the element width. -/
def Gaussian (w : Nat) (src : Nat → Nat) (rows cols : Nat) : Matrix :=
  ⟨rows, cols, (List.range (rows * cols)).map fun i => src i % 2 ^ w⟩

/-- Go `Get(i, j)`: bounds-checked read of the row-major entry `i*cols+j`. -/
def Matrix.Get (m : Matrix) (i j : Nat) : Except Err Nat :=
  if i ≥ m.rows then .error .IndexOutOfRange
  else if j ≥ m.cols then .error .IndexOutOfRange
  else .ok (m.data.getD (i * m.cols + j) 0)

/-- Go `Set(val, i, j)`: bounds-checked write of `T(val)` to the row-major
entry `i*cols+j`.  NOTE the argument order of the source: value first, then
the row and column indices. -/
def Matrix.Set (w : Nat) (m : Matrix) (val i j : Nat) : Except Err Matrix :=
  if i ≥ m.rows then .error .IndexOutOfRange
  else if j ≥ m.cols then .error .IndexOutOfRange
  else .ok ⟨m.rows, m.cols, m.data.set (i * m.cols + j) (val % 2 ^ w)⟩

/-- Go `(a *Matrix[T]) Concat(b)`: if `a` is 0-by-0 it adopts `b`'s shape and
storage; otherwise column counts must match and `b`'s rows are appended. -/
def Matrix.Concat (a b : Matrix) : Except Err Matrix :=
  if a.cols = 0 ∧ a.rows = 0 then .ok ⟨b.rows, b.cols, b.data⟩
  else if a.cols ≠ b.cols then .error .DimensionMismatch
  else .ok ⟨a.rows + b.rows, a.cols, a.data ++ b.data⟩

/-- Go `AppendZeros(n)`: `m.Concat(Zeros[T](n, 1))` — note the zero matrix
always has one column, regardless of `m.cols`. -/
def Matrix.AppendZeros (m : Matrix) (n : Nat) : Except Err Matrix :=
  m.Concat (Zeros n 1)

/-- Go `DropLastrows(n)`: `m.rows -= n; m.data = m.data[:m.rows*m.cols]`.
For `n > m.rows` the uint64 subtraction wraps and the reslice panics with a
slice-bounds error, modelled as `IndexOutOfRange`. -/
def Matrix.DropLastrows (m : Matrix) (n : Nat) : Except Err Matrix :=
  if n > m.rows then .error .IndexOutOfRange
  else .ok ⟨m.rows - n, m.cols, m.data.take ((m.rows - n) * m.cols)⟩

/-- Go `GetRow(offset, num_rows)`: a window of `num_rows` rows starting at
`offset` (the Go result aliases the parent storage; as a value it is the
corresponding sub-sequence of `data`). -/
def Matrix.GetRow (m : Matrix) (offset num_rows : Nat) : Except Err Matrix :=
  if offset + num_rows > m.rows then .error .IndexOutOfRange
  else .ok ⟨num_rows, m.cols, (m.data.drop (offset * m.cols)).take (num_rows * m.cols)⟩

/-- Modelled from the spec (section 4.1): `Add` is elementwise addition
modulo 2^width via native wraparound; incompatible shapes are a
`DimensionMismatch` (section 7).  The Go method lives in a matrix-package
file that is not among the sources.  `AddVal` is the value on matching
shapes. -/
def AddVal (w : Nat) (a b : Matrix) : Matrix :=
  ⟨a.rows, a.cols, List.zipWith (fun x y => (x + y) % 2 ^ w) a.data b.data⟩

/-- Modelled from the spec (sections 4.1 and 7): shape check for `Add`. -/
def Matrix.Add (w : Nat) (a b : Matrix) : Except Err Matrix :=
  if a.rows ≠ b.rows ∨ a.cols ≠ b.cols then .error .DimensionMismatch
  else .ok (AddVal w a b)

/-- Modelled from the spec (section 4.1): `Sub` is elementwise subtraction
modulo 2^width via native wraparound (the Go method is not among the
sources).  `SubVal` is the value on matching shapes. -/
def SubVal (w : Nat) (a b : Matrix) : Matrix :=
  ⟨a.rows, a.cols, List.zipWith (fun x y => (x + (2 ^ w - y % 2 ^ w)) % 2 ^ w) a.data b.data⟩

/-- Modelled from the spec (sections 4.1 and 7): shape check for `Sub`. -/
def Matrix.Sub (w : Nat) (a b : Matrix) : Except Err Matrix :=
  if a.rows ≠ b.rows ∨ a.cols ≠ b.cols then .error .DimensionMismatch
  else .ok (SubVal w a b)

/-- Modelled from the spec (section 4.1): `MulConst(scalar)` multiplies every
entry by the scalar modulo 2^width (the Go method is not among the
sources). -/
def Matrix.MulConst (w : Nat) (m : Matrix) (c : Nat) : Matrix :=
  ⟨m.rows, m.cols, m.data.map fun x => x * c % 2 ^ w⟩

/-- Inner product of row `i` of `a` with column `j` of `b`, accumulated with
native wraparound at every multiply-add (the working value stays reduced
modulo 2^w). -/
def dotMod (w : Nat) (a b : Matrix) (i j : Nat) : Nat :=
  (List.range a.cols).foldl
    (fun acc k => (acc + a.data.getD (i * a.cols + k) 0 * b.data.getD (k * b.cols + j) 0) % 2 ^ w) 0

/-- Modelled from the spec (section 4.1): `Mul(A,B)` is the naive triple-sum
matrix product modulo 2^width (the Go kernel is in a matrix-package file not
among the sources; the spec requires any kernel to be bit-identical to this
reference definition).  `MulVal` is the value on matching shapes. -/
def MulVal (w : Nat) (a b : Matrix) : Matrix :=
  ⟨a.rows, b.cols,
    (List.range (a.rows * b.cols)).map fun idx => dotMod w a b (idx / b.cols) (idx % b.cols)⟩

/-- Modelled from the spec (sections 4.1 and 7): shape check for `Mul`. -/
def Mul (w : Nat) (a b : Matrix) : Except Err Matrix :=
  if a.cols ≠ b.rows then .error .DimensionMismatch
  else .ok (MulVal w a b)

/-- Modelled from the spec (section 4.3): `Delta = floor(Q / P)` with
`Q = 2^logmod` (the Params code is not among the sources). -/
def Delta (logmod p : Nat) : Nat := 2 ^ logmod / p

/-- Modelled from the spec (section 4.3): `Round(v) = round(v / Delta) mod P`
— nearest-multiple-of-Delta rounding with wraparound at the modulus boundary,
realised as `floor((v + Delta/2) / Delta) mod P` (the Params code is not
among the sources). -/
def Round (logmod p v : Nat) : Nat :=
  ((v + Delta logmod p / 2) / Delta logmod p) % p

/-- The client state used by QueryLHE/RecoverManyLHE: the dbinfo fields
(`M`, `Ne`, `RowLength`, `Squishing`), the params fields (`N`, `P`,
`logmod`), the public matrix `A` and the hint. -/
structure Client where
  N : Nat
  M : Nat
  RowLength : Nat
  Ne : Nat
  Squishing : Nat
  P : Nat
  logmod : Nat
  matrixA : Matrix
  hint : Matrix
  deriving DecidableEq, Repr

/-- A heap of matrix cells.  Go matrices are reached through pointers and
mutated in place; a cell index plays the role of a pointer. -/
structure Store where
  mats : List Matrix
  deriving DecidableEq, Repr

/-- Number of allocated cells; also the index the next allocation gets. -/
def Store.size (st : Store) : Nat := st.mats.length

/-- Dereference a cell (out-of-range reads give the empty matrix; they do
not occur on the paths proved below). -/
def Store.read (st : Store) (r : Nat) : Matrix := st.mats.getD r ⟨0, 0, []⟩

/-- Allocate a fresh cell holding `m`; its index is the old `size`. -/
def Store.alloc (st : Store) (m : Matrix) : Store := ⟨st.mats ++ [m]⟩

/-- Overwrite cell `r` in place. -/
def Store.write (st : Store) (r : Nat) (m : Matrix) : Store := ⟨st.mats.set r m⟩

/-- Go `SecretLHE[T]`: the client-held per-query secret.  Each field is a
pointer to a matrix, modelled as a store cell index. -/
structure SecretLHE where
  query : Nat
  secret : Nat
  arr : Nat
  deriving DecidableEq, Repr

/-- Go `Answer[T]` as used by RecoverManyLHE: wraps the answer matrix. -/
structure Answer where
  answer : Matrix
  deriving DecidableEq, Repr

/-- Go `(c *Client[T]) QueryLHE(arrIn)`.  The input plaintext vector is a
store cell `arrInRef`; the result is the final store, the `SecretLHE`
(cell indices for its three pointer fields) and the cell index of the query
matrix wrapped in the transmitted `Query`.  Mirrors the source line by line:
`arr := arrIn.Copy()` allocates a fresh cell; the shape check; the
`Ne`/capacity check (Go computes `1 << RowLength` in uint64, hence the
reduction modulo 2^64); the power-of-two check `P & (P-1) != 0` (for `P = 0`
Go's `P-1` wraps to 2^64-1, but `0 & x = 0` for every `x`, so Nat truncated
subtraction gives the same test value); the secret struct holding the fresh
`Rand` sample (the call site passes modulus 0) and the `arr` cell; the
Gaussian error; `query := Mul(A, s.secret)` allocating a fresh cell;
in-place `query.Add(err)`; in-place `arr.MulConst(T(Delta))` on the cell the
secret's `arr` field points to; in-place `query.Add(arr)`; padding via
`AppendZeros` when `M % Squishing != 0` (a division-by-zero panic if
`Squishing == 0`); and `s.query = query.Copy()` into a fresh cell.  Reads of
the mutable locals `arr` and `query` use the value most recently written to
their cells, which coincides with dereferencing because the four cells are
distinct fresh allocations. -/
def QueryLHE (w : Nat) (c : Client) (sSrc eSrc : Nat → Nat) (st : Store) (arrInRef : Nat) :
    Except Err (Store × SecretLHE × Nat) :=
  let arr0 := (st.read arrInRef).Copy
  let arrRef := st.size
  let st1 := st.alloc arr0
  if arr0.rows ≠ c.M ∨ arr0.cols ≠ 1 then
    .error .ParameterMismatch
  else if c.Ne ≠ 1 ∨ 2 ^ c.RowLength % 2 ^ 64 > c.P then
    .error .UnsupportedParameter
  else if c.P &&& (c.P - 1) ≠ 0 then
    .error .UnsupportedParameter
  else
    let s0 := Rand w sSrc c.N 1 0 0
    let secRef := st1.size
    let st2 := st1.alloc s0
    let e := Gaussian w eSrc c.M 1
    match Mul w c.matrixA s0 with
    | .error er => .error er
    | .ok q0 =>
      let qRef := st2.size
      let st3 := st2.alloc q0
      match Matrix.Add w q0 e with
      | .error er => .error er
      | .ok q1 =>
        let st4 := st3.write qRef q1
        let arr1 := Matrix.MulConst w arr0 (Delta c.logmod c.P % 2 ^ w)
        let st5 := st4.write arrRef arr1
        match Matrix.Add w q1 arr1 with
        | .error er => .error er
        | .ok q2 =>
          let st6 := st5.write qRef q2
          if c.Squishing = 0 then .error .DivideByZero
          else
            match
              if c.M % c.Squishing ≠ 0 then
                q2.AppendZeros (c.Squishing - c.M % c.Squishing)
              else .ok q2
            with
            | .error er => .error er
            | .ok q3 =>
              let st7 := st6.write qRef q3
              let sqRef := st7.size
              let st8 := st7.alloc q3.Copy
              .ok (st8, ⟨sqRef, secRef, arrRef⟩, qRef)

/-- One iteration of the recovery loop of Go `RecoverManyLHE`: the source
line is `out.Set(row, 0, T(denoised % c.params.P))`, whose arguments are
passed here in the order written — against `Set`'s declared parameter order
`Set(val, i, j)` this makes `row` the stored value, `0` the row index and
the reduced recovered entry the column index. -/
def RecoverStep (w p logmod : Nat) (ans : Matrix) (out : Matrix) (row : Nat) :
    Except Err Matrix := do
  let noised ← ans.Get row 0
  let denoised := Round logmod p noised
  Matrix.Set w out row 0 (denoised % p % 2 ^ w)

/-- Go `(c *Client[T]) RecoverManyLHE(secret, ansIn)`: the `Ne` check, a deep
copy of the answer, `interm = Mul(hint, secret.secret)`, in-place
`ans.Sub(interm)` (local to the copy, so modelled on values), then the
per-row recovery loop over a zero matrix `out` with `ans.Rows()` rows. -/
def RecoverManyLHE (w : Nat) (c : Client) (st : Store) (sec : SecretLHE) (ansIn : Answer) :
    Except Err Matrix :=
  if c.Ne ≠ 1 then .error .UnsupportedParameter
  else
    let ans0 := ansIn.answer.Copy
    match Mul w c.hint (st.read sec.secret) with
    | .error er => .error er
    | .ok interm =>
      match Matrix.Sub w ans0 interm with
      | .error er => .error er
      | .ok ans =>
        (List.range ans.rows).foldlM (RecoverStep w c.P c.logmod ans) (Zeros ans.rows 1)

/-- Number of zero rows QueryLHE pads the transmitted query with. -/
def QPad (c : Client) : Nat :=
  if c.M % c.Squishing = 0 then 0 else c.Squishing - c.M % c.Squishing

/-- Value of the query after the three arithmetic steps, before padding:
`Mul(A, s)` plus the Gaussian error plus the in-place-scaled plaintext copy. -/
def QMasked (w : Nat) (c : Client) (sSrc eSrc : Nat → Nat) (x : Matrix) : Matrix :=
  AddVal w (AddVal w (MulVal w c.matrixA (Rand w sSrc c.N 1 0 0)) (Gaussian w eSrc c.M 1))
    (Matrix.MulConst w x.Copy (Delta c.logmod c.P % 2 ^ w))

/-- Final (padded) value of the transmitted query. -/
def QFinal (w : Nat) (c : Client) (sSrc eSrc : Nat → Nat) (x : Matrix) : Matrix :=
  if c.M % c.Squishing = 0 then QMasked w c sSrc eSrc x
  else ⟨(QMasked w c sSrc eSrc x).rows + (c.Squishing - c.M % c.Squishing),
        (QMasked w c sSrc eSrc x).cols,
        (QMasked w c sSrc eSrc x).data ++
          List.replicate ((c.Squishing - c.M % c.Squishing) * 1) 0⟩

/-- For C2: the specification of a successful QueryLHE call, phrased on the
returned store and references: the secret's `secret` cell holds the fresh
`Rand(N,1)` sample; the Gaussian error has shape M-by-1; the transmitted
query is a column whose row count is M padded up to a multiple of
`Squishing`; its first M entries are `(A·s)[r] + e[r] + Delta·x[r] mod
2^width` and the padding rows are zero; and the secret's `query` field is a
distinct cell holding a copy of the final padded query. -/
def C2concl (w : Nat) (c : Client) (sSrc eSrc : Nat → Nat) (st : Store) (arrInRef : Nat) :
    Prop :=
  ∃ stF sec qRef, QueryLHE w c sSrc eSrc st arrInRef = .ok (stF, sec, qRef) ∧
    stF.read sec.secret = Rand w sSrc c.N 1 0 0 ∧
    (stF.read sec.secret).rows = c.N ∧ (stF.read sec.secret).cols = 1 ∧
    (Gaussian w eSrc c.M 1).rows = c.M ∧ (Gaussian w eSrc c.M 1).cols = 1 ∧
    (stF.read qRef).cols = 1 ∧ c.M ≤ (stF.read qRef).rows ∧
    (stF.read qRef).rows % c.Squishing = 0 ∧
    (∀ r xr, r < c.M → (st.read arrInRef).Get r 0 = .ok xr →
      (stF.read qRef).Get r 0 =
        .ok ((dotMod w c.matrixA (Rand w sSrc c.N 1 0 0) r 0 + eSrc r
          + Delta c.logmod c.P * xr) % 2 ^ w)) ∧
    (∀ r, c.M ≤ r → r < (stF.read qRef).rows → (stF.read qRef).Get r 0 = .ok 0) ∧
    stF.read sec.query = stF.read qRef ∧ sec.query ≠ qRef

/-- For C5: what the cell behind the secret's `arr` field holds after a
successful QueryLHE call. -/
def C5concl (w : Nat) (c : Client) (sSrc eSrc : Nat → Nat) (st : Store) (arrInRef : Nat) :
    Prop :=
  ∃ stF sec qRef, QueryLHE w c sSrc eSrc st arrInRef = .ok (stF, sec, qRef) ∧
    stF.read sec.arr =
      Matrix.MulConst w (st.read arrInRef).Copy (Delta c.logmod c.P % 2 ^ w) ∧
    (∀ r xr, r < c.M → (st.read arrInRef).Get r 0 = .ok xr →
      (stF.read sec.arr).Get r 0 = .ok (Delta c.logmod c.P * xr % 2 ^ w))

/-- For C5's counterexample: the entry (0,0) of the matrix held by the cell
the returned secret's `arr` field points to. -/
def storedArrEntry (res : Except Err (Store × SecretLHE × Nat)) : Except Err Nat :=
  match res with
  | .ok (stF, sec, _) => (stF.read sec.arr).Get 0 0
  | .error _ => .error .RandomnessFailure

/-- For C10: on a successful QueryLHE result the input cell is unchanged (a
failing call discards the store in this model; the proof shows the only
writes target cells allocated within the call). -/
def PreservesArrIn (st : Store) (arrInRef : Nat) (res : Except Err (Store × SecretLHE × Nat)) :
    Prop :=
  match res with
  | .ok (stF, _, _) => stF.read arrInRef = st.read arrInRef
  | .error _ => True

/-! ### Helper lemmas about lists, stores and row-major indexing -/

lemma getD_range_map (f : Nat → Nat) (n i : Nat) (h : i < n) :
    ((List.range n).map f).getD i 0 = f i := by
  rw [List.getD_eq_getElem?_getD, List.getElem?_map, List.getElem?_range h]
  rfl

lemma getD_map_zero (f : Nat → Nat) (l : List Nat) (i : Nat) (h : i < l.length) :
    (l.map f).getD i 0 = f (l.getD i 0) := by
  rw [List.getD_eq_getElem _ _ (by simpa using h), List.getD_eq_getElem _ _ h]
  simp

lemma getD_zipWith_zero (f : Nat → Nat → Nat) (l1 l2 : List Nat) (i : Nat)
    (h1 : i < l1.length) (h2 : i < l2.length) :
    (List.zipWith f l1 l2).getD i 0 = f (l1.getD i 0) (l2.getD i 0) := by
  rw [List.getD_eq_getElem _ _ (by simp [List.length_zipWith]; omega),
    List.getD_eq_getElem _ _ h1, List.getD_eq_getElem _ _ h2]
  simp

lemma getD_replicate_zero (n k : Nat) : (List.replicate n (0 : Nat)).getD k 0 = 0 := by
  rw [List.getD_eq_getElem?_getD, List.getElem?_replicate]
  split <;> rfl

lemma rowmajor_lt {i j r c : Nat} (hi : i < r) (hj : j < c) : i * c + j < r * c :=
  calc i * c + j < i * c + c := by omega
    _ = (i + 1) * c := by ring
    _ ≤ r * c := Nat.mul_le_mul_right c hi

lemma rowmajor_inj {c i j i' j' : Nat} (hj : j < c) (hj' : j' < c)
    (h : i * c + j = i' * c + j') : i = i' ∧ j = j' := by
  have hc : 0 < c := Nat.lt_of_le_of_lt (Nat.zero_le _) hj
  have hmod : ∀ a b : Nat, b < c → (a * c + b) % c = b := by
    intro a b hb
    rw [Nat.mul_comm, Nat.mul_add_mod, Nat.mod_eq_of_lt hb]
  have hdiv : ∀ a b : Nat, b < c → (a * c + b) / c = a := by
    intro a b hb
    rw [Nat.mul_comm, Nat.mul_add_div hc, Nat.div_eq_of_lt hb, Nat.add_zero]
  constructor
  · have := congrArg (fun t => t / c) h
    simpa [hdiv _ _ hj, hdiv _ _ hj'] using this
  · have := congrArg (fun t => t % c) h
    simpa [hmod _ _ hj, hmod _ _ hj'] using this

lemma Store.size_alloc (st : Store) (m : Matrix) : (st.alloc m).size = st.size + 1 := by
  simp [Store.alloc, Store.size]

lemma Store.size_write (st : Store) (r : Nat) (m : Matrix) : (st.write r m).size = st.size := by
  simp [Store.write, Store.size]

lemma Store.read_alloc_self (st : Store) (m : Matrix) : (st.alloc m).read st.size = m := by
  simp only [Store.read, Store.alloc, Store.size]
  rw [List.getD_append_right _ _ _ _ (Nat.le_refl _), Nat.sub_self]
  rfl

lemma Store.read_alloc_of_lt (st : Store) (m : Matrix) (r : Nat) (h : r < st.size) :
    (st.alloc m).read r = st.read r := by
  simp only [Store.read, Store.alloc]
  exact List.getD_append _ _ _ _ h

lemma Store.read_write_self (st : Store) (r : Nat) (m : Matrix) (h : r < st.size) :
    (st.write r m).read r = m := by
  simp only [Store.read, Store.write]
  rw [List.getD_eq_getElem?_getD, List.getElem?_set_self h]
  rfl

lemma Store.read_write_of_ne (st : Store) (r r' : Nat) (m : Matrix) (h : r ≠ r') :
    (st.write r m).read r' = st.read r' := by
  simp only [Store.read, Store.write]
  rw [List.getD_eq_getElem?_getD, List.getElem?_set_ne h, ← List.getD_eq_getElem?_getD]

lemma concat_ok (a b : Matrix) (hcc : a.cols = b.cols) (hne : ¬(a.cols = 0 ∧ a.rows = 0)) :
    a.Concat b = .ok ⟨a.rows + b.rows, a.cols, a.data ++ b.data⟩ := by
  unfold Matrix.Concat
  rw [if_neg hne, if_neg (by omega)]

lemma concat_get_left (a b : Matrix) (ha : Wf a) (i j : Nat) (hi : i < a.rows)
    (hj : j < a.cols) :
    (Matrix.mk (a.rows + b.rows) a.cols (a.data ++ b.data)).Get i j = a.Get i j := by
  unfold Matrix.Get
  dsimp only
  rw [if_neg (by omega), if_neg (by omega), if_neg (by omega), if_neg (by omega)]
  rw [List.getD_append _ _ _ _ (by rw [ha]; exact rowmajor_lt hi hj)]

lemma concat_get_right (a b : Matrix) (ha : Wf a) (hcc : b.cols = a.cols) (i j : Nat)
    (hi : a.rows ≤ i) (hi2 : i < a.rows + b.rows) (hj : j < a.cols) :
    (Matrix.mk (a.rows + b.rows) a.cols (a.data ++ b.data)).Get i j = b.Get (i - a.rows) j := by
  obtain ⟨k, hk⟩ : ∃ k, i = a.rows + k := ⟨i - a.rows, by omega⟩
  subst hk
  unfold Matrix.Get
  dsimp only
  rw [if_neg (by omega), if_neg (by omega), if_neg (by omega), if_neg (by omega)]
  simp only [Nat.add_sub_cancel_left]
  have hidx : (a.rows + k) * a.cols + j = a.data.length + (k * a.cols + j) := by
    rw [ha, Nat.add_mul]; omega
  rw [hidx, List.getD_append_right _ _ _ _ (by omega), Nat.add_sub_cancel_left, hcc]

/-- The value as which `Copy` of a matrix is stored (field-identical). -/
lemma Matrix.Copy_eq (m : Matrix) : m.Copy = m := rfl

lemma Store.read_append (st : Store) (l : List Matrix) (k : Nat) :
    (Store.mk (st.mats ++ l)).read (st.size + k) = l.getD k ⟨0, 0, []⟩ := by
  simp only [Store.read, Store.size]
  rw [List.getD_append_right _ _ _ _ (by omega), Nat.add_sub_cancel_left]

lemma addadd_mod (n dotv ev xv d : Nat) :
    ((dotv + ev % n) % n + xv * (d % n) % n) % n = (dotv + ev + d * xv) % n := by
  have h1 : dotv + ev % n ≡ dotv + ev [MOD n] := (Nat.mod_modEq ev n).add_left dotv
  have h2 : xv * (d % n) ≡ xv * d [MOD n] := (Nat.mod_modEq d n).mul_left xv
  have h3 := h1.add h2
  calc ((dotv + ev % n) % n + xv * (d % n) % n) % n
      = (dotv + ev % n + xv * (d % n)) % n := (Nat.add_mod _ _ _).symm
    _ = (dotv + ev + xv * d) % n := h3
    _ = (dotv + ev + d * xv) % n := by rw [Nat.mul_comm xv d]

lemma mulconst_mod (n xv d : Nat) : xv * (d % n) % n = d * xv % n := by
  have h2 : xv * (d % n) ≡ xv * d [MOD n] := (Nat.mod_modEq d n).mul_left xv
  calc xv * (d % n) % n = xv * d % n := h2
    _ = d * xv % n := by rw [Nat.mul_comm xv d]

/-- Under the conditions in which none of QueryLHE's checks fire and the
client is well-formed (public matrix of shape M-by-N, nonzero compression
factor), QueryLHE succeeds and its effect is exactly: four fresh cells
holding the scaled plaintext copy, the sampled secret, the final query, and
the secret's deep copy of the final query, with the secret's fields
pointing at cells size+3 (query copy), size+1 (secret) and size (scaled
plaintext), and the transmitted query at cell size+2. -/
lemma QueryLHE_ok (w : Nat) (c : Client) (sSrc eSrc : Nat → Nat) (st : Store) (arrInRef : Nat)
    (hrows : (st.read arrInRef).rows = c.M) (hcols : (st.read arrInRef).cols = 1)
    (hne : c.Ne = 1) (hcap : 2 ^ c.RowLength % 2 ^ 64 ≤ c.P)
    (hpow : c.P &&& (c.P - 1) = 0)
    (hAr : c.matrixA.rows = c.M) (hAc : c.matrixA.cols = c.N) (hsq : c.Squishing ≠ 0) :
    QueryLHE w c sSrc eSrc st arrInRef =
      .ok (⟨st.mats ++
              [Matrix.MulConst w (st.read arrInRef).Copy (Delta c.logmod c.P % 2 ^ w),
               Rand w sSrc c.N 1 0 0,
               QFinal w c sSrc eSrc (st.read arrInRef),
               QFinal w c sSrc eSrc (st.read arrInRef)]⟩,
           ⟨st.size + 3, st.size + 1, st.size⟩, st.size + 2) := by
  have hmul : Mul w c.matrixA (Rand w sSrc c.N 1 0 0)
      = .ok (MulVal w c.matrixA (Rand w sSrc c.N 1 0 0)) := by
    unfold Mul
    rw [if_neg (by simp [Rand, hAc])]
  have hadd1 : Matrix.Add w (MulVal w c.matrixA (Rand w sSrc c.N 1 0 0))
        (Gaussian w eSrc c.M 1)
      = .ok (AddVal w (MulVal w c.matrixA (Rand w sSrc c.N 1 0 0))
        (Gaussian w eSrc c.M 1)) := by
    unfold Matrix.Add
    rw [if_neg (by simp [MulVal, Rand, Gaussian, hAr])]
  have hadd2 : Matrix.Add w
        (AddVal w (MulVal w c.matrixA (Rand w sSrc c.N 1 0 0)) (Gaussian w eSrc c.M 1))
        (Matrix.MulConst w (st.read arrInRef).Copy (Delta c.logmod c.P % 2 ^ w))
      = .ok (QMasked w c sSrc eSrc (st.read arrInRef)) := by
    unfold Matrix.Add
    rw [if_neg (by
      simp [AddVal, MulVal, Rand, Gaussian, Matrix.MulConst, Matrix.Copy, hAr, hrows, hcols])]
    rfl
  have hq3 : (if c.M % c.Squishing ≠ 0 then
        (QMasked w c sSrc eSrc (st.read arrInRef)).AppendZeros
          (c.Squishing - c.M % c.Squishing)
      else .ok (QMasked w c sSrc eSrc (st.read arrInRef)))
      = .ok (QFinal w c sSrc eSrc (st.read arrInRef)) := by
    by_cases hpad : c.M % c.Squishing = 0
    · rw [if_neg (by simp [hpad]),
        show QFinal w c sSrc eSrc (st.read arrInRef)
            = QMasked w c sSrc eSrc (st.read arrInRef) from by
          unfold QFinal
          rw [if_pos hpad]]
    · rw [if_pos hpad]
      unfold Matrix.AppendZeros
      rw [concat_ok (QMasked w c sSrc eSrc (st.read arrInRef))
        (Zeros (c.Squishing - c.M % c.Squishing) 1) rfl
        (fun hcon => Nat.one_ne_zero (hcon.1 : (1 : Nat) = 0))]
      unfold QFinal
      rw [if_neg hpad]
      rfl
  simp only [QueryLHE]
  rw [if_neg (by simp [Matrix.Copy, hrows, hcols]), if_neg (by omega), if_neg (by omega)]
  simp only [hmul, hadd1, hadd2]
  rw [if_neg hsq]
  simp only [hq3]
  simp [Store.alloc, Store.write, Store.size, Matrix.Copy_eq, List.set_append_right,
    List.append_assoc, List.singleton_append, Nat.add_sub_cancel_left]

lemma Store.read_append_zero (st : Store) (l : List Matrix) :
    (Store.mk (st.mats ++ l)).read st.size = l.getD 0 ⟨0, 0, []⟩ := by
  simp only [Store.read, Store.size]
  rw [List.getD_append_right _ _ _ _ (Nat.le_refl _), Nat.sub_self]

lemma qmasked_rows (w : Nat) (c : Client) (sSrc eSrc : Nat → Nat) (x : Matrix) :
    (QMasked w c sSrc eSrc x).rows = c.matrixA.rows := rfl

lemma qmasked_cols (w : Nat) (c : Client) (sSrc eSrc : Nat → Nat) (x : Matrix) :
    (QMasked w c sSrc eSrc x).cols = 1 := rfl

lemma qmasked_len (w : Nat) (c : Client) (sSrc eSrc : Nat → Nat) (x : Matrix)
    (hx : x.data.length = c.M) (hAr : c.matrixA.rows = c.M) :
    (QMasked w c sSrc eSrc x).data.length = c.M := by
  simp [QMasked, AddVal, MulVal, Gaussian, Rand, Matrix.MulConst, Matrix.Copy,
    List.length_zipWith, hx, hAr]

lemma qmasked_entry (w : Nat) (c : Client) (sSrc eSrc : Nat → Nat) (x : Matrix)
    (hx : x.data.length = c.M) (hAr : c.matrixA.rows = c.M) (r : Nat) (hr : r < c.M) :
    (QMasked w c sSrc eSrc x).data.getD r 0
      = (dotMod w c.matrixA (Rand w sSrc c.N 1 0 0) r 0 + eSrc r
          + Delta c.logmod c.P * x.data.getD r 0) % 2 ^ w := by
  simp only [QMasked, AddVal, MulVal, Gaussian, Rand, Matrix.MulConst, Matrix.Copy]
  rw [getD_zipWith_zero, getD_zipWith_zero, getD_range_map, getD_range_map, getD_map_zero]
  · rw [Nat.div_one, Nat.mod_one]
    exact addadd_mod _ _ _ _ _
  all_goals
    first
    | omega
    | (simp only [List.length_zipWith, List.length_map, List.length_range, hx, hAr]; omega)

lemma qfinal_cols (w : Nat) (c : Client) (sSrc eSrc : Nat → Nat) (x : Matrix) :
    (QFinal w c sSrc eSrc x).cols = 1 := by
  unfold QFinal
  split
  · rfl
  · rfl

lemma qfinal_rows (w : Nat) (c : Client) (sSrc eSrc : Nat → Nat) (x : Matrix)
    (hAr : c.matrixA.rows = c.M) :
    (QFinal w c sSrc eSrc x).rows = c.M + QPad c := by
  unfold QFinal QPad
  split
  · show c.matrixA.rows = c.M + 0
    omega
  · show c.matrixA.rows + (c.Squishing - c.M % c.Squishing)
      = c.M + (c.Squishing - c.M % c.Squishing)
    omega

lemma qfinal_entry_lo (w : Nat) (c : Client) (sSrc eSrc : Nat → Nat) (x : Matrix)
    (hx : x.data.length = c.M) (hAr : c.matrixA.rows = c.M) (r : Nat) (hr : r < c.M) :
    (QFinal w c sSrc eSrc x).data.getD r 0 = (QMasked w c sSrc eSrc x).data.getD r 0 := by
  unfold QFinal
  split
  · rfl
  · show ((QMasked w c sSrc eSrc x).data ++ _).getD r 0 = _
    rw [List.getD_append _ _ _ _ (by rw [qmasked_len w c sSrc eSrc x hx hAr]; omega)]

lemma qfinal_entry_hi (w : Nat) (c : Client) (sSrc eSrc : Nat → Nat) (x : Matrix)
    (hx : x.data.length = c.M) (hAr : c.matrixA.rows = c.M) (r : Nat) (hr : c.M ≤ r) :
    (QFinal w c sSrc eSrc x).data.getD r 0 = 0 := by
  unfold QFinal
  split
  · rw [List.getD_eq_default _ _ (by rw [qmasked_len w c sSrc eSrc x hx hAr]; omega)]
  · show ((QMasked w c sSrc eSrc x).data ++ _).getD r 0 = _
    rw [List.getD_append_right _ _ _ _ (by rw [qmasked_len w c sSrc eSrc x hx hAr]; omega)]
    exact getD_replicate_zero _ _

lemma qpad_mod (c : Client) (hsq : c.Squishing ≠ 0) : (c.M + QPad c) % c.Squishing = 0 := by
  unfold QPad
  split
  · rename_i h
    rw [Nat.add_zero]
    exact h
  · rename_i h
    have hlt : c.M % c.Squishing < c.Squishing := Nat.mod_lt _ (by omega)
    have hdm := Nat.div_add_mod c.M c.Squishing
    have heq : c.M + (c.Squishing - c.M % c.Squishing)
        = c.Squishing * (c.M / c.Squishing + 1) := by
      rw [Nat.mul_add, Nat.mul_one]
      omega
    rw [heq, Nat.mul_mod_right]

/-! ### The claims -/

/-- C9: for every well-formed matrix, `Get(i,j)` and `Set(v,i,j)` fail with
`IndexOutOfRange` exactly when `i >= rows` or `j >= cols`; otherwise `Get`
returns the element stored at row-major position `i*cols + j`, and `Set`
changes only that element (to the width-reduced value). -/
theorem C9_get_set_bounds (w : Nat) (m : Matrix) (hm : Wf m) :
    (∀ i j, i ≥ m.rows ∨ j ≥ m.cols →
      m.Get i j = .error .IndexOutOfRange ∧
      ∀ v, m.Set w v i j = .error .IndexOutOfRange) ∧
    (∀ i j, i < m.rows → j < m.cols →
      m.Get i j = .ok (m.data.getD (i * m.cols + j) 0)) ∧
    (∀ v i j, i < m.rows → j < m.cols →
      ∃ m', m.Set w v i j = .ok m' ∧ m'.rows = m.rows ∧ m'.cols = m.cols ∧
        m'.Get i j = .ok (v % 2 ^ w) ∧
        ∀ i' j', i' < m.rows → j' < m.cols → ¬(i' = i ∧ j' = j) →
          m'.Get i' j' = m.Get i' j') := by
  refine ⟨?_, ?_, ?_⟩
  · intro i j h
    constructor
    · unfold Matrix.Get
      rcases Nat.lt_or_ge i m.rows with hi | hi
      · rw [if_neg (by omega), if_pos (by omega)]
      · rw [if_pos (by omega)]
    · intro v
      unfold Matrix.Set
      rcases Nat.lt_or_ge i m.rows with hi | hi
      · rw [if_neg (by omega), if_pos (by omega)]
      · rw [if_pos (by omega)]
  · intro i j hi hj
    unfold Matrix.Get
    rw [if_neg (by omega), if_neg (by omega)]
  · intro v i j hi hj
    refine ⟨⟨m.rows, m.cols, m.data.set (i * m.cols + j) (v % 2 ^ w)⟩, ?_, rfl, rfl, ?_, ?_⟩
    · unfold Matrix.Set
      rw [if_neg (by omega), if_neg (by omega)]
    · unfold Matrix.Get
      dsimp only
      rw [if_neg (by omega), if_neg (by omega)]
      rw [List.getD_eq_getElem?_getD,
        List.getElem?_set_self (by rw [hm]; exact rowmajor_lt hi hj)]
      rfl
    · intro i' j' hi' hj' hne
      unfold Matrix.Get
      dsimp only
      rw [if_neg (by omega), if_neg (by omega), if_neg (by omega), if_neg (by omega)]
      rw [List.getD_eq_getElem?_getD,
        List.getElem?_set_ne (by
          intro hcontra
          obtain ⟨h1, h2⟩ := rowmajor_inj hj hj' hcontra
          exact hne ⟨h1.symm, h2.symm⟩),
        ← List.getD_eq_getElem?_getD]

/-- C8: every matrix operation preserves the structural invariant
`data.length == rows*cols`: it holds for every matrix produced by `New`,
`Zeros`, `Rand`, `Gaussian`, `Concat`, `GetRow`, `Copy`, and after
`AppendZeros` and `DropLastrows`. -/
theorem C8_wf_preserved (w : Nat) :
    (∀ r c, Wf (New r c)) ∧
    (∀ r c, Wf (Zeros r c)) ∧
    (∀ src r c lm md, Wf (Rand w src r c lm md)) ∧
    (∀ src r c, Wf (Gaussian w src r c)) ∧
    (∀ a b m', Wf a → Wf b → a.Concat b = .ok m' → Wf m') ∧
    (∀ m off n m', Wf m → m.GetRow off n = .ok m' → Wf m') ∧
    (∀ m, Wf m → Wf m.Copy) ∧
    (∀ m n m', Wf m → m.AppendZeros n = .ok m' → Wf m') ∧
    (∀ m n m', Wf m → m.DropLastrows n = .ok m' → Wf m') := by
  have hconcat : ∀ a b m', Wf a → Wf b → a.Concat b = .ok m' → Wf m' := by
    intro a b m' ha hb h
    unfold Matrix.Concat at h
    split at h
    · injection h with h
      subst h
      simpa [Wf] using hb
    · split at h
      · cases h
      · injection h with h
        subst h
        rename_i hcc
        have hcc' : a.cols = b.cols := by omega
        simp only [Wf, List.length_append] at *
        rw [ha, hb, Nat.add_mul, hcc']
  refine ⟨?_, ?_, ?_, ?_, hconcat, ?_, ?_, ?_, ?_⟩
  · intro r c; simp [Wf, New]
  · intro r c; simp [Wf, Zeros]
  · intro src r c lm md; simp [Wf, Rand]
  · intro src r c; simp [Wf, Gaussian]
  · intro m off n m' hm h
    unfold Matrix.GetRow at h
    split at h
    · cases h
    · injection h with h
      subst h
      rename_i hcond
      have h1 : (off + n) * m.cols ≤ m.rows * m.cols :=
        Nat.mul_le_mul_right _ (by omega)
      rw [Nat.add_mul] at h1
      have hm' : m.data.length = m.rows * m.cols := hm
      simp only [Wf, List.length_take, List.length_drop, hm']
      omega
  · intro m hm
    simpa [Wf, Matrix.Copy] using hm
  · intro m n m' hm h
    exact hconcat m (Zeros n 1) m' hm (by simp [Wf, Zeros]) h
  · intro m n m' hm h
    unfold Matrix.DropLastrows at h
    split at h
    · cases h
    · injection h with h
      subst h
      have h1 : (m.rows - n) * m.cols ≤ m.rows * m.cols :=
        Nat.mul_le_mul_right _ (Nat.sub_le _ _)
      have hm' : m.data.length = m.rows * m.cols := hm
      simp only [Wf, List.length_take, hm']
      omega

/-- C6: for well-formed matrices A (a-by-c) and B (b-by-c), Concat yields the
vertical stack (rows a+b, cols c, upper entries from A, lower entries from
B); with differing column counts it fails with DimensionMismatch, except
that a 0-by-0 A adopts B's shape and storage. -/
theorem C6_concat_correct (a b : Matrix) (ha : Wf a) (hb : Wf b) :
    (a.cols = b.cols →
      ∃ m', a.Concat b = .ok m' ∧ m'.rows = a.rows + b.rows ∧ m'.cols = a.cols ∧
        (∀ i j, i < a.rows → j < a.cols → m'.Get i j = a.Get i j) ∧
        (∀ i j, a.rows ≤ i → i < a.rows + b.rows → j < a.cols →
          m'.Get i j = b.Get (i - a.rows) j)) ∧
    (a.cols ≠ b.cols →
      (¬(a.cols = 0 ∧ a.rows = 0) → a.Concat b = .error .DimensionMismatch) ∧
      ((a.cols = 0 ∧ a.rows = 0) → a.Concat b = .ok b)) := by
  constructor
  · intro hcc
    by_cases hempty : a.cols = 0 ∧ a.rows = 0
    · refine ⟨⟨b.rows, b.cols, b.data⟩, ?_,
        (show b.rows = a.rows + b.rows by omega), (show b.cols = a.cols by omega), ?_, ?_⟩
      · unfold Matrix.Concat
        rw [if_pos hempty]
      · intro i j hi hj
        omega
      · intro i j hi hi2 hj
        have hrw : i - a.rows = i := by omega
        rw [hrw]
    · refine ⟨⟨a.rows + b.rows, a.cols, a.data ++ b.data⟩, concat_ok a b hcc hempty,
        rfl, rfl, ?_, ?_⟩
      · intro i j hi hj
        exact concat_get_left a b ha i j hi hj
      · intro i j hi hi2 hj
        exact concat_get_right a b ha hcc.symm i j hi hi2 hj
  · intro hcc
    constructor
    · intro hempty
      unfold Matrix.Concat
      rw [if_neg hempty, if_pos hcc]
    · intro hempty
      unfold Matrix.Concat
      rw [if_pos hempty]

/-- C4 counterexample: the claim says AppendZeros succeeds for every matrix,
but on a well-formed 1-by-2 matrix it fails with DimensionMismatch, because
the Go code concatenates `Zeros(n, 1)` — a one-column zero matrix —
regardless of the receiver's column count. -/
theorem C4_counterexample :
    Wf ⟨1, 2, [5, 7]⟩ ∧
    Matrix.AppendZeros ⟨1, 2, [5, 7]⟩ 1 = .error Err.DimensionMismatch := by
  decide

/-- C4 (amended): for every well-formed matrix with exactly one column,
`AppendZeros(n)` succeeds, increases `rows` by `n`, leaves all previously
stored entries unchanged, and every appended entry reads back as 0; by
definition it is `Concat` with the n-row one-column zero matrix (which is
the receiver's column count in this case). -/
theorem C4_append_zeros (m : Matrix) (n : Nat) (hm : Wf m) (hc : m.cols = 1) :
    ∃ m', m.AppendZeros n = .ok m' ∧ m'.rows = m.rows + n ∧ m'.cols = m.cols ∧
      (∀ i j, i < m.rows → j < m.cols → m'.Get i j = m.Get i j) ∧
      (∀ i, m.rows ≤ i → i < m.rows + n → m'.Get i 0 = .ok 0) := by
  have hz : Wf (Zeros n 1) := by simp [Wf, Zeros]
  refine ⟨⟨m.rows + n, m.cols, m.data ++ (Zeros n 1).data⟩, ?_, rfl, rfl, ?_, ?_⟩
  · unfold Matrix.AppendZeros
    have h := concat_ok m (Zeros n 1) (by simpa [Zeros] using hc) (by omega)
    rw [h]
    rfl
  · intro i j hi hj
    have h := concat_get_left m (Zeros n 1) hm i j hi hj
    simpa [Zeros] using h
  · intro i hi hi2
    unfold Matrix.Get
    dsimp only
    rw [if_neg (by omega), if_neg (by omega)]
    have hm' : m.data.length = m.rows * m.cols := hm
    have hlen : m.data.length ≤ i * m.cols + 0 := by rw [hm', hc]; omega
    rw [List.getD_append_right _ _ _ _ hlen]
    simp only [Zeros]
    rw [getD_replicate_zero]

/-- C3: with 0 < P and P dividing Q = 2^logmod (the spec's Params invariant
for the homomorphic variant), rounding round-trips: for every x < P,
`Round(Delta*x mod Q) = x`; and at the modulus boundary, whenever Q-1 is
closer to Q than to Q-Delta (that is, 1 < Delta-1), `Round(Q-1) = 0`. -/
theorem C3_round_roundtrip (logmod p : Nat) (hp : 0 < p) (hd : p ∣ 2 ^ logmod) :
    (∀ x, x < p → Round logmod p (Delta logmod p * x % 2 ^ logmod) = x) ∧
    (1 < Delta logmod p - 1 → Round logmod p (2 ^ logmod - 1) = 0) := by
  have hQ : 0 < 2 ^ logmod := Nat.pos_pow_of_pos _ (by omega)
  have hQeq : Delta logmod p * p = 2 ^ logmod := Nat.div_mul_cancel hd
  have hDpos : 0 < Delta logmod p := by
    rcases Nat.eq_zero_or_pos (Delta logmod p) with h0 | h
    · rw [h0, Nat.zero_mul] at hQeq; omega
    · exact h
  constructor
  · intro x hx
    have hlt : Delta logmod p * x < 2 ^ logmod := by
      rw [← hQeq]
      exact mul_lt_mul_of_pos_left hx hDpos
    rw [Nat.mod_eq_of_lt hlt]
    unfold Round
    rw [Nat.mul_add_div hDpos,
      Nat.div_eq_of_lt (Nat.div_lt_self hDpos (by omega)), Nat.add_zero,
      Nat.mod_eq_of_lt hx]
  · intro h3
    unfold Round
    have hsucc : (p + 1) * Delta logmod p = p * Delta logmod p + Delta logmod p :=
      Nat.succ_mul p _
    have hcomm : p * Delta logmod p = 2 ^ logmod := by rw [Nat.mul_comm]; exact hQeq
    have key : (2 ^ logmod - 1 + Delta logmod p / 2) / Delta logmod p = p :=
      Nat.div_eq_of_lt_le (by omega) (by omega)
    rw [key, Nat.mod_self]

/-- C1 (evaluation of the code at the failing input): with element width 32,
Ne = 1, P = 2, logmod = 4 (so Delta = 8), hint = [[0]], secret s = [[0]] and
answer = [[8]], the recovered entry is Round(8) mod 2 = 1, so the claim says
RecoverManyLHE returns the 1-by-1 matrix [[1]]; instead the code panics with
an index-out-of-range error, because `out.Set(row, 0, T(denoised % P))`
passes the row index as the value and the recovered entry as the column
index against Set's declared order Set(val, i, j). -/
theorem C1_recover_set_swapped :
    RecoverManyLHE 32 ⟨1, 1, 0, 1, 1, 2, 4, ⟨1, 1, [0]⟩, ⟨1, 1, [0]⟩⟩
      ⟨[⟨1, 1, [0]⟩]⟩ ⟨0, 0, 0⟩ ⟨⟨1, 1, [8]⟩⟩ = .error Err.IndexOutOfRange ∧
    Round 4 2 8 % 2 = 1 := by
  decide

/-- Witness for C9 at a concrete well-formed 2-by-2 matrix. -/
theorem C9_witness :
    Matrix.Get ⟨2, 2, [1, 2, 3, 4]⟩ 2 0 = .error Err.IndexOutOfRange ∧
    Matrix.Get ⟨2, 2, [1, 2, 3, 4]⟩ 1 1 = .ok 4 := by
  have h := C9_get_set_bounds 32 ⟨2, 2, [1, 2, 3, 4]⟩ (by decide)
  exact ⟨(h.1 2 0 (by decide)).1, (h.2.1 1 1 (by decide) (by decide)).trans (by decide)⟩

/-- Witness for C8 at a concrete input. -/
theorem C8_witness : Wf (Matrix.Copy (New 2 3)) :=
  (C8_wf_preserved 32).2.2.2.2.2.2.1 (New 2 3) (by decide)

/-- Witness for C6 at concrete matrices with mismatched column counts. -/
theorem C6_witness :
    Matrix.Concat ⟨1, 1, [5]⟩ ⟨1, 2, [7, 8]⟩ = .error Err.DimensionMismatch :=
  ((C6_concat_correct ⟨1, 1, [5]⟩ ⟨1, 2, [7, 8]⟩ (by decide) (by decide)).2
    (by decide)).1 (by decide)

/-- Witness for C4 (amended) at a concrete one-column matrix. -/
theorem C4_witness : ∃ m', Matrix.AppendZeros ⟨1, 1, [5]⟩ 2 = .ok m' ∧ m'.rows = 3 := by
  obtain ⟨m', h1, h2, _⟩ := C4_append_zeros ⟨1, 1, [5]⟩ 2 (by decide) (by decide)
  exact ⟨m', h1, h2.trans (by decide)⟩

/-- Witness for C3 at logmod = 4, P = 4 (Delta = 4), x = 3. -/
theorem C3_witness : Round 4 4 (Delta 4 4 * 3 % 2 ^ 4) = 3 ∧ Round 4 4 (2 ^ 4 - 1) = 0 := by
  have h := C3_round_roundtrip 4 4 (by decide) (by decide)
  exact ⟨h.1 3 (by decide), h.2 (by decide)⟩

/-- C2: for every well-formed plaintext column vector x of shape M-by-1, when
Ne = 1, the 64-bit value of 2^RowLength is at most P, and P is a power of
two, QueryLHE samples a fresh secret of shape N-by-1 and a Gaussian error of
shape M-by-1; the transmitted query is a column vector, padded with zero
rows so its row count is a multiple of Squishing, whose first M entries are
(A·s)[r] + e[r] + Delta·x[r] (mod 2^width); and the returned Secret holds s
and a copy of the final padded query in a cell distinct from the
transmitted one. -/
theorem C2_query_value (w : Nat) (c : Client) (sSrc eSrc : Nat → Nat) (st : Store)
    (arrInRef : Nat) (hwf : Wf (st.read arrInRef))
    (hrows : (st.read arrInRef).rows = c.M) (hcols : (st.read arrInRef).cols = 1)
    (hne : c.Ne = 1) (hcap : 2 ^ c.RowLength % 2 ^ 64 ≤ c.P)
    (hpow : c.P &&& (c.P - 1) = 0)
    (hAr : c.matrixA.rows = c.M) (hAc : c.matrixA.cols = c.N) (hsq : c.Squishing ≠ 0) :
    C2concl w c sSrc eSrc st arrInRef := by
  have hx : (st.read arrInRef).data.length = c.M := by
    rw [hwf, hrows, hcols, Nat.mul_one]
  unfold C2concl
  refine ⟨_, _, _,
    QueryLHE_ok w c sSrc eSrc st arrInRef hrows hcols hne hcap hpow hAr hAc hsq,
    ?_, ?_, ?_, rfl, rfl, ?_, ?_, ?_, ?_, ?_, ?_, ?_⟩
  · simp only [Store.read_append, List.getD_cons_zero, List.getD_cons_succ]
  · simp only [Store.read_append, List.getD_cons_zero, List.getD_cons_succ, Rand]
  · simp only [Store.read_append, List.getD_cons_zero, List.getD_cons_succ, Rand]
  · simp only [Store.read_append, List.getD_cons_zero, List.getD_cons_succ]
    exact qfinal_cols w c sSrc eSrc _
  · simp only [Store.read_append, List.getD_cons_zero, List.getD_cons_succ]
    rw [qfinal_rows w c sSrc eSrc _ hAr]
    omega
  · simp only [Store.read_append, List.getD_cons_zero, List.getD_cons_succ]
    rw [qfinal_rows w c sSrc eSrc _ hAr]
    exact qpad_mod c hsq
  · intro r xr hr hget
    unfold Matrix.Get at hget
    rw [if_neg (by omega), if_neg (by omega)] at hget
    injection hget with hget
    rw [hcols, Nat.mul_one, Nat.add_zero] at hget
    simp only [Store.read_append, List.getD_cons_zero, List.getD_cons_succ]
    unfold Matrix.Get
    rw [if_neg (by rw [qfinal_rows w c sSrc eSrc _ hAr]; omega),
      if_neg (by rw [qfinal_cols w c sSrc eSrc _]; omega)]
    rw [qfinal_cols w c sSrc eSrc _, Nat.mul_one, Nat.add_zero,
      qfinal_entry_lo w c sSrc eSrc _ hx hAr r hr,
      qmasked_entry w c sSrc eSrc _ hx hAr r hr, hget]
  · intro r hr1 hr2
    simp only [Store.read_append, List.getD_cons_zero, List.getD_cons_succ] at hr2 ⊢
    unfold Matrix.Get
    rw [if_neg (by omega), if_neg (by rw [qfinal_cols w c sSrc eSrc _]; omega)]
    rw [qfinal_cols w c sSrc eSrc _, Nat.mul_one, Nat.add_zero,
      qfinal_entry_hi w c sSrc eSrc _ hx hAr r hr1]
  · simp only [Store.read_append, List.getD_cons_zero, List.getD_cons_succ]
  · show st.size + 3 ≠ st.size + 2
    omega

/-- Witness for C2: a 1-record database client with Squishing = 2 (so the
query is padded from 1 to 2 rows), Delta = 2, concrete sample streams. -/
theorem C2_witness :
    C2concl 32 ⟨1, 1, 0, 1, 2, 2, 2, ⟨1, 1, [1]⟩, ⟨1, 1, [0]⟩⟩ (fun i => i + 3)
      (fun i => i + 5) ⟨[⟨1, 1, [1]⟩]⟩ 0 :=
  C2_query_value 32 ⟨1, 1, 0, 1, 2, 2, 2, ⟨1, 1, [1]⟩, ⟨1, 1, [0]⟩⟩ (fun i => i + 3)
    (fun i => i + 5) ⟨[⟨1, 1, [1]⟩]⟩ 0 (by decide) (by decide) (by decide) (by decide)
    (by decide) (by decide) (by decide) (by decide) (by decide)

/-- C5 counterexample: with Delta = 2 (P = 2, logmod = 2) and input plaintext
x = [1], after QueryLHE the cell behind the returned Secret's `arr` field
holds [2] = Delta·x, not the original [1]: QueryLHE stores the buffer `arr`
in the secret and then scales that same buffer in place by Delta. -/
theorem C5_counterexample :
    storedArrEntry (QueryLHE 32 ⟨1, 1, 0, 1, 1, 2, 2, ⟨1, 1, [0]⟩, ⟨1, 1, [0]⟩⟩
        (fun _ => 0) (fun _ => 0) ⟨[⟨1, 1, [1]⟩]⟩ 0) = .ok 2 ∧
    Matrix.Get ⟨1, 1, [1]⟩ 0 0 = .ok 1 ∧ Delta 2 2 = 2 ∧ (2 : Nat) ≠ 1 := by
  decide

/-- C5 (amended): after a successful QueryLHE, the Secret's retained
plaintext buffer holds the input vector scaled entrywise by Delta modulo
2^width (the stored reference aliases the copy that QueryLHE scales in
place), not the original x. -/
theorem C5_arr_scaled (w : Nat) (c : Client) (sSrc eSrc : Nat → Nat) (st : Store)
    (arrInRef : Nat) (hwf : Wf (st.read arrInRef))
    (hrows : (st.read arrInRef).rows = c.M) (hcols : (st.read arrInRef).cols = 1)
    (hne : c.Ne = 1) (hcap : 2 ^ c.RowLength % 2 ^ 64 ≤ c.P)
    (hpow : c.P &&& (c.P - 1) = 0)
    (hAr : c.matrixA.rows = c.M) (hAc : c.matrixA.cols = c.N) (hsq : c.Squishing ≠ 0) :
    C5concl w c sSrc eSrc st arrInRef := by
  have hx : (st.read arrInRef).data.length = c.M := by
    rw [hwf, hrows, hcols, Nat.mul_one]
  unfold C5concl
  refine ⟨_, _, _,
    QueryLHE_ok w c sSrc eSrc st arrInRef hrows hcols hne hcap hpow hAr hAc hsq, ?_, ?_⟩
  · simp only [Store.read_append_zero, List.getD_cons_zero]
  · intro r xr hr hget
    unfold Matrix.Get at hget
    rw [if_neg (by omega), if_neg (by omega)] at hget
    injection hget with hget
    rw [hcols, Nat.mul_one, Nat.add_zero] at hget
    simp only [Store.read_append_zero, List.getD_cons_zero]
    unfold Matrix.Get
    dsimp only [Matrix.MulConst, Matrix.Copy]
    rw [if_neg (by omega), if_neg (by omega)]
    rw [hcols, Nat.mul_one, Nat.add_zero]
    rw [getD_map_zero]
    · rw [hget, mulconst_mod]
    · rw [hx]
      omega

/-- Witness for C5 (amended) at a concrete client with Delta = 2. -/
theorem C5_witness :
    C5concl 32 ⟨1, 1, 0, 1, 2, 2, 2, ⟨1, 1, [1]⟩, ⟨1, 1, [0]⟩⟩ (fun i => i + 3)
      (fun i => i + 5) ⟨[⟨1, 1, [1]⟩]⟩ 0 :=
  C5_arr_scaled 32 ⟨1, 1, 0, 1, 2, 2, 2, ⟨1, 1, [1]⟩, ⟨1, 1, [0]⟩⟩ (fun i => i + 3)
    (fun i => i + 5) ⟨[⟨1, 1, [1]⟩]⟩ 0 (by decide) (by decide) (by decide) (by decide)
    (by decide) (by decide) (by decide) (by decide) (by decide)

/-- C7 counterexample: with RowLength = 64, Ne = 1 and P = 2 (a power of
two), the claim says QueryLHE must fail with UnsupportedParameter because
2^64 > 2; but Go computes `1 << 64` in uint64, which wraps to 0, so the
capacity check passes and the call succeeds. -/
theorem C7_counterexample :
    QueryLHE 32 ⟨1, 1, 64, 1, 1, 2, 2, ⟨1, 1, [0]⟩, ⟨1, 1, [0]⟩⟩ (fun _ => 0) (fun _ => 0)
        ⟨[⟨1, 1, [1]⟩]⟩ 0 ≠ .error Err.UnsupportedParameter ∧
    2 ^ (64 : Nat) > 2 ∧ (2 : Nat) &&& (2 - 1) = 0 := by
  decide

/-- C7 (amended): for every shape-correct input to a well-formed client,
QueryLHE fails with UnsupportedParameter if and only if Ne is not 1, or
2^RowLength computed in 64-bit arithmetic (that is, 2^RowLength mod 2^64)
exceeds P, or P has more than one bit set (P & (P-1) is nonzero; P = 0
passes this bit test); otherwise it does not fail on parameter grounds. -/
theorem C7_unsupported_iff (w : Nat) (c : Client) (sSrc eSrc : Nat → Nat) (st : Store)
    (arrInRef : Nat)
    (hrows : (st.read arrInRef).rows = c.M) (hcols : (st.read arrInRef).cols = 1)
    (hAr : c.matrixA.rows = c.M) (hAc : c.matrixA.cols = c.N) (hsq : c.Squishing ≠ 0) :
    (QueryLHE w c sSrc eSrc st arrInRef = .error Err.UnsupportedParameter) ↔
      (c.Ne ≠ 1 ∨ 2 ^ c.RowLength % 2 ^ 64 > c.P ∨ c.P &&& (c.P - 1) ≠ 0) := by
  by_cases h : c.Ne ≠ 1 ∨ 2 ^ c.RowLength % 2 ^ 64 > c.P ∨ c.P &&& (c.P - 1) ≠ 0
  · refine iff_of_true ?_ h
    simp only [QueryLHE]
    rw [if_neg (by simp [Matrix.Copy, hrows, hcols])]
    by_cases h1 : c.Ne ≠ 1 ∨ 2 ^ c.RowLength % 2 ^ 64 > c.P
    · rw [if_pos h1]
    · rw [if_neg h1, if_pos (by tauto)]
  · refine iff_of_false ?_ h
    push_neg at h
    rw [QueryLHE_ok w c sSrc eSrc st arrInRef hrows hcols h.1 h.2.1 h.2.2 hAr hAc hsq]
    simp

/-- Witness for C7 (amended) at a client with Ne = 2: both sides of the
equivalence hold. -/
theorem C7_witness :
    (QueryLHE 32 ⟨1, 1, 0, 2, 1, 2, 2, ⟨1, 1, [0]⟩, ⟨1, 1, [0]⟩⟩ (fun _ => 0) (fun _ => 0)
        ⟨[⟨1, 1, [1]⟩]⟩ 0 = .error Err.UnsupportedParameter) ↔
      ((2 : Nat) ≠ 1 ∨ 2 ^ (0 : Nat) % 2 ^ 64 > 2 ∨ (2 : Nat) &&& (2 - 1) ≠ 0) :=
  C7_unsupported_iff 32 ⟨1, 1, 0, 2, 1, 2, 2, ⟨1, 1, [0]⟩, ⟨1, 1, [0]⟩⟩ (fun _ => 0)
    (fun _ => 0) ⟨[⟨1, 1, [1]⟩]⟩ 0 (by decide) (by decide) (by decide) (by decide) (by decide)

/-- C10: QueryLHE never mutates its input plaintext vector: on every
successful call the input cell holds the same matrix as before (dimensions
and entries), because the function works on a deep copy allocated in a
fresh cell and only ever writes to cells it allocated itself. -/
theorem C10_no_mutation (w : Nat) (c : Client) (sSrc eSrc : Nat → Nat) (st : Store)
    (arrInRef : Nat) (h : arrInRef < st.size) :
    PreservesArrIn st arrInRef (QueryLHE w c sSrc eSrc st arrInRef) := by
  simp only [QueryLHE]
  repeat' split
  all_goals try exact True.intro
  simp only [PreservesArrIn]
  rw [Store.read_alloc_of_lt, Store.read_write_of_ne, Store.read_write_of_ne,
    Store.read_write_of_ne, Store.read_write_of_ne, Store.read_alloc_of_lt,
    Store.read_alloc_of_lt, Store.read_alloc_of_lt]
  all_goals
    first
    | omega
    | (simp only [Store.size_alloc, Store.size_write]; omega)

/-- Witness for C10 at a concrete client and store. -/
theorem C10_witness :
    PreservesArrIn ⟨[⟨1, 1, [1]⟩]⟩ 0
      (QueryLHE 32 ⟨1, 1, 0, 1, 1, 2, 2, ⟨1, 1, [0]⟩, ⟨1, 1, [0]⟩⟩ (fun _ => 0) (fun _ => 0)
        ⟨[⟨1, 1, [1]⟩]⟩ 0) :=
  C10_no_mutation 32 ⟨1, 1, 0, 1, 1, 2, 2, ⟨1, 1, [0]⟩, ⟨1, 1, [0]⟩⟩ (fun _ => 0) (fun _ => 0)
    ⟨[⟨1, 1, [1]⟩]⟩ 0 (by decide)

end SimplePIR
